import Mathlib

set_option maxHeartbeats 1000000

/-!
Shallow embedding of the AutoXAI evaluation-and-search core:
`evaluation_measures.py`, `hyperparameters_optimization.py` and
`XAI_solutions.py`. Machine floating-point scalars are modelled exactly as
rationals extended with the IEEE-754 special values that numpy produces
(the module suppresses all warnings, so degenerate divisions yield `nan`
or `inf` silently, never an exception).
-/

/-- Extended value domain for numpy floating-point scalars: ordinary values
are modelled exactly as rationals, plus the IEEE-754 specials `nan`, `inf`
and `ninf` that numpy division and means can produce. -/
inductive PFloat where
  | nan : PFloat
  | inf : PFloat
  | ninf : PFloat
  | val : ℚ → PFloat
deriving DecidableEq

namespace PFloat

/-- Negation of a numpy scalar: the negation of `nan` is `nan`. -/
def neg : PFloat → PFloat
  | nan => nan
  | inf => ninf
  | ninf => inf
  | val q => val (-q)

/-- Addition with IEEE-754 special-value propagation (`inf + -inf = nan`). -/
def add : PFloat → PFloat → PFloat
  | nan, _ => nan
  | _, nan => nan
  | inf, ninf => nan
  | ninf, inf => nan
  | inf, _ => inf
  | _, inf => inf
  | ninf, _ => ninf
  | _, ninf => ninf
  | val a, val b => val (a + b)

/-- Subtraction, as addition of the negation. -/
def sub (a b : PFloat) : PFloat := a.add b.neg

/-- Absolute value: `abs nan = nan`, the absolute value of both infinities
is `inf`. -/
def pabs : PFloat → PFloat
  | nan => nan
  | inf => inf
  | ninf => inf
  | val q => val |q|

/-- Division by a positive rational constant (a list length, or the literal
`10` of the early-stop test). -/
def divP : PFloat → ℚ → PFloat
  | nan, _ => nan
  | inf, _ => inf
  | ninf, _ => ninf
  | val a, q => val (a / q)

/-- Boolean less-or-equal with IEEE-754 semantics: every comparison
involving `nan` is false. -/
def leb : PFloat → PFloat → Bool
  | nan, _ => false
  | _, nan => false
  | ninf, _ => true
  | _, inf => true
  | inf, _ => false
  | _, ninf => false
  | val a, val b => decide (a ≤ b)

theorem neg_neg (p : PFloat) : p.neg.neg = p := by
  cases p <;> simp [neg]

end PFloat

/-- Elementwise subtraction of point vectors (numpy array subtraction). -/
def vsub (a b : List ℚ) : List ℚ := List.zipWith (fun u v => u - v) a b

/-- Sum of squares of a vector: a computable, definite and nonnegative
function used to instantiate the abstract norm parameter in concrete
witnesses (the Euclidean norm of the source shares exactly the properties
the theorems require of the parameter: it vanishes precisely on the zero
vector and is nonnegative). -/
def sumSq (v : List ℚ) : ℚ := (v.map (fun c => c * c)).sum

theorem sumSq_nonneg : ∀ v : List ℚ, 0 ≤ sumSq v := by
  intro v
  induction v with
  | nil => simp [sumSq]
  | cons h t ih =>
    simp only [sumSq, List.map_cons, List.sum_cons]
    have hh := mul_self_nonneg h
    have ht : 0 ≤ (t.map (fun c => c * c)).sum := ih
    linarith

/-- numpy scalar division `a / b` with warnings suppressed: `0 / 0 = nan`,
and `a / 0 = ±inf` for nonzero `a`; no exception is ever raised. -/
def fdiv (a b : ℚ) : PFloat :=
  if b = 0 then
    if a = 0 then PFloat.nan else if 0 < a then PFloat.inf else PFloat.ninf
  else PFloat.val (a / b)

/-- Embedding of `lipschitz_ratio` (evaluation_measures.py lines 13-60).
`np.linalg.norm` is external numpy code and is abstracted as the parameter
`nrm` (the source uses the Euclidean norm; the theorems only require
definiteness or nonnegativity of `nrm`, stated as hypotheses). The
`reshape` argument of the source is dropped: the data points here are
one-dimensional, where the reshape is the identity. The list-to-array
coercions at the top of the source function are no-ops in this model, and
`multip * (...)` with `multip = -1` is IEEE negation. -/
def lipschitz_ratio (nrm : List ℚ → ℚ) (x y : List ℚ)
    (function : List ℚ → List ℚ) (minus : Bool) : PFloat :=
  let fx := function x
  let fy := function y
  let r := fdiv (nrm (vsub fx fy)) (nrm (vsub x y))
  if minus then r.neg else r

/-- Negating the `minus = true` ratio recovers the plain ratio: used to show
that the compute path's `lip = -res.fun` equals the replayed ratio. -/
theorem lipschitz_ratio_true_neg (nrm : List ℚ → ℚ) (x y : List ℚ)
    (f : List ℚ → List ℚ) :
    PFloat.neg (lipschitz_ratio nrm x y f true) = lipschitz_ratio nrm x y f false := by
  simp [lipschitz_ratio, PFloat.neg_neg]

/-- C1 counterexample: at the concrete equal pair `x = y = [1, 2]` (with the
sum-of-squares instantiation of the abstract norm, which, like the Euclidean
norm of the source, vanishes on the zero vector), `lipschitz_ratio` silently
returns `nan` — one of the values the claim says it can never return — so it
does not signal a distinct domain error. -/
theorem lipschitz_ratio_equal_points_cex :
    lipschitz_ratio sumSq [1, 2] [1, 2] (fun v => v) false = PFloat.nan := by
  with_unfolding_all decide

/-- C1 amended: for every pair of equal points `x == y` and every function
`f`, `lipschitz_ratio(x, y, f)` silently returns `nan` (the denominator
`norm(x - y)` is zero and, `f` being deterministic, the numerator
`norm(f x - f y)` is zero as well, so the division is `0 / 0`; numpy
warnings are suppressed by the module). No domain error is signaled. The
two hypotheses state that the norm vanishes on the two zero vectors
`f x - f x` and `x - x`, which holds for the Euclidean norm. -/
theorem lipschitz_ratio_equal_points_nan (nrm : List ℚ → ℚ) (x : List ℚ)
    (f : List ℚ → List ℚ) (minus : Bool)
    (hfx : nrm (vsub (f x) (f x)) = 0) (hx : nrm (vsub x x) = 0) :
    lipschitz_ratio nrm x x f minus = PFloat.nan := by
  simp only [lipschitz_ratio, fdiv, hfx, hx, if_pos rfl]
  cases minus <;> simp [PFloat.neg]

/-- Witness for the C1 amended theorem at the concrete point `[3]` with the
function mapping every coordinate to its successor. -/
theorem lipschitz_ratio_equal_points_nan_witness :
    sumSq (vsub ((fun v => v.map (fun c => c + 1)) [3])
        ((fun v => v.map (fun c => c + 1)) [3])) = 0 ∧
    sumSq (vsub [3] [3]) = 0 ∧
    lipschitz_ratio sumSq [3] [3] (fun v => v.map (fun c => c + 1)) true = PFloat.nan :=
  ⟨by with_unfolding_all decide, by with_unfolding_all decide,
    lipschitz_ratio_equal_points_nan sumSq [3] (fun v => v.map (fun c => c + 1)) true
      (by with_unfolding_all decide) (by with_unfolding_all decide)⟩

/-- Embedding of `np.mean` on a list of scalars: `nan` on the empty list
(numpy's mean of an empty slice with warnings suppressed), otherwise the sum
divided by the length. -/
def pmean (l : List PFloat) : PFloat :=
  if l.isEmpty then PFloat.nan
  else (l.foldl PFloat.add (PFloat.val 0)).divP (l.length : ℚ)

/-- Early-stop stability test shared by both measures (evaluation_measures.py
lines 129 and 214): the source condition is
`abs(np.mean(scores[:-1]) - np.mean(scores)) <= np.mean(scores)/10`, where
`prev` is the score list before the current append and `cur` the list after
it (so `prev = cur[:-1]`); with `prev` empty the mean is `nan` and the
comparison is false. -/
def esCond (prev cur : List PFloat) : Bool :=
  ((pmean prev).sub (pmean cur)).pabs.leb ((pmean cur).divP 10)

/-- Embedding of the adaptive sampling loop shared by the compute paths of
`compute_lipschitz_robustness` (lines 108-134) and `compute_infidelity`
(lines 188-219): the early-stop flag `es` is hard-coded true in both, and
the per-point score computation is abstracted as `f`. `fuel` counts the
remaining iterations of `for i in range(n)`, `i` is the loop index,
`stable` is `stable_i` and `acc` the accumulated score list. The stability
counter increments only when the test passes and `i > 5` (resetting to `0`
otherwise), and the loop breaks once the streak exceeds `5`. -/
def adaptiveGo (f : Nat → PFloat) : Nat → Nat → Nat → List PFloat → List PFloat
  | 0, _, _, acc => acc
  | fuel + 1, i, stable, acc =>
    let acc' := acc ++ [f i]
    if esCond acc acc' ∧ 5 < i then
      if 5 < stable + 1 then acc'
      else adaptiveGo f fuel (i + 1) (stable + 1) acc'
    else adaptiveGo f fuel (i + 1) 0 acc'

/-- Adaptive sampling loop over a dataset of size `n`, starting at index 0
with a zero streak and an empty score list. -/
def adaptiveLoop (f : Nat → PFloat) (n : Nat) : List PFloat :=
  adaptiveGo f n 0 0 []

/-- Unfolding equation for one loop iteration. -/
theorem adaptiveGo_succ (f : Nat → PFloat) (fuel i stable : Nat)
    (acc : List PFloat) :
    adaptiveGo f (fuel + 1) i stable acc =
      (if esCond acc (acc ++ [f i]) ∧ 5 < i then
        if 5 < stable + 1 then acc ++ [f i]
        else adaptiveGo f fuel (i + 1) (stable + 1) (acc ++ [f i])
      else adaptiveGo f fuel (i + 1) 0 (acc ++ [f i])) := rfl

/-- The loop only ever appends scores in index order: its output is the map
of `f` over an initial segment of the indices. -/
theorem adaptiveGo_range (f : Nat → PFloat) :
    ∀ fuel i stable, ∃ k, i ≤ k ∧ k ≤ i + fuel ∧
      adaptiveGo f fuel i stable ((List.range i).map f) = (List.range k).map f := by
  intro fuel
  induction fuel with
  | zero => intro i stable; exact ⟨i, le_refl i, by omega, rfl⟩
  | succ fuel ih =>
    intro i stable
    have happ : (List.range i).map f ++ [f i] = (List.range (i + 1)).map f := by
      rw [List.range_succ, List.map_append, List.map_cons, List.map_nil]
    rw [adaptiveGo_succ, happ]
    by_cases hc : esCond ((List.range i).map f) ((List.range (i + 1)).map f) ∧ 5 < i
    · rw [if_pos hc]
      by_cases hs : 5 < stable + 1
      · rw [if_pos hs]; exact ⟨i + 1, by omega, by omega, rfl⟩
      · rw [if_neg hs]
        obtain ⟨k, hk1, hk2, hk3⟩ := ih (i + 1) (stable + 1)
        exact ⟨k, by omega, by omega, hk3⟩
    · rw [if_neg hc]
      obtain ⟨k, hk1, hk2, hk3⟩ := ih (i + 1) 0
      exact ⟨k, by omega, by omega, hk3⟩

/-- The adaptive loop output is `f` mapped over `range k` for some `k ≤ n`. -/
theorem adaptiveLoop_range (f : Nat → PFloat) (n : Nat) :
    ∃ k, k ≤ n ∧ adaptiveLoop f n = (List.range k).map f := by
  obtain ⟨k, _, hk2, hk3⟩ := adaptiveGo_range f n 0 0
  exact ⟨k, by omega, hk3⟩

/-- Sum of a constant list of ordinary scalars, as accumulated by `np.mean`. -/
theorem foldl_add_replicate (c : ℚ) :
    ∀ (j : Nat) (a : ℚ), (List.replicate j (PFloat.val c)).foldl PFloat.add
      (PFloat.val a) = PFloat.val (a + j * c) := by
  intro j
  induction j with
  | zero => intro a; simp
  | succ j ih =>
    intro a
    rw [List.replicate_succ, List.foldl_cons]
    show (List.replicate j (PFloat.val c)).foldl PFloat.add (PFloat.val (a + c)) = _
    rw [ih (a + c)]
    congr 1
    push_cast
    ring

/-- Mean of a nonempty constant list is the constant, exactly. -/
theorem pmean_replicate (j : Nat) (c : ℚ) :
    pmean (List.replicate (j + 1) (PFloat.val c)) = PFloat.val c := by
  have hne : (List.replicate (j + 1) (PFloat.val c)).isEmpty = false := by
    simp [List.isEmpty_iff]
  rw [pmean, hne]
  simp only [Bool.false_eq_true, if_false, foldl_add_replicate, List.length_replicate]
  show PFloat.val ((0 + (j + 1 : Nat) * c) / ((j + 1 : Nat) : ℚ)) = PFloat.val c
  congr 1
  have hj : ((j + 1 : Nat) : ℚ) ≠ 0 := by positivity
  field_simp

/-- The stability test passes between consecutive nonempty constant lists of
a nonnegative score. -/
theorem esCond_replicate (j : Nat) (c : ℚ) (hc : 0 ≤ c) :
    esCond (List.replicate (j + 1) (PFloat.val c))
      (List.replicate (j + 2) (PFloat.val c)) = true := by
  have h2 : (j + 2) = (j + 1) + 1 := rfl
  rw [esCond, pmean_replicate, h2, pmean_replicate]
  show (((PFloat.val c).add (PFloat.val (-c))).pabs.leb (PFloat.val (c / 10))) = true
  show ((PFloat.val (c + -c)).pabs.leb (PFloat.val (c / 10))) = true
  have hcc : c + -c = 0 := by ring
  rw [hcc]
  show (decide (|(0 : ℚ)| ≤ c / 10)) = true
  rw [decide_eq_true_iff]
  rw [abs_zero]
  positivity

/-- The stability test fails at the very first loop iteration: the mean of
the empty previous list is `nan` and comparisons with `nan` are false. -/
theorem esCond_nil (c : ℚ) : esCond [] [PFloat.val c] = false := rfl

/-- Warm-up step of the loop on a constant score list: for `i ≤ 5` the
streak condition fails (the index guard `i > 5` is false), the streak resets
to `0` and the loop continues. -/
theorem adaptiveGo_step_warm (f : Nat → PFloat) (c : ℚ) (fuel i s : Nat)
    (h5 : i ≤ 5) (hfi : f i = PFloat.val c) :
    adaptiveGo f (fuel + 1) i s (List.replicate i (PFloat.val c))
      = adaptiveGo f fuel (i + 1) 0 (List.replicate (i + 1) (PFloat.val c)) := by
  rw [adaptiveGo_succ, hfi, ← List.replicate_succ']
  rw [if_neg (fun h => absurd h.2 (by omega))]

/-- Streak step of the loop on a constant nonnegative score list: for
`i ≥ 6` (hence the previous list nonempty) the stability test passes, the
streak increments without yet exceeding `5`, and the loop continues. -/
theorem adaptiveGo_step_streak (f : Nat → PFloat) (c : ℚ) (hc : 0 ≤ c)
    (fuel i s : Nat) (h6 : 6 ≤ i) (hs : s + 1 ≤ 5) (hfi : f i = PFloat.val c) :
    adaptiveGo f (fuel + 1) i s (List.replicate i (PFloat.val c))
      = adaptiveGo f fuel (i + 1) (s + 1) (List.replicate (i + 1) (PFloat.val c)) := by
  obtain ⟨j, rfl⟩ : ∃ j, i = j + 1 := ⟨i - 1, by omega⟩
  rw [adaptiveGo_succ, hfi, ← List.replicate_succ']
  rw [if_pos ⟨esCond_replicate j c hc, by omega⟩]
  rw [if_neg (by omega)]

/-- Break step of the loop on a constant nonnegative score list: at streak
`5` the increment reaches `6 > 5` and the loop returns the accumulated
scores. -/
theorem adaptiveGo_step_break (f : Nat → PFloat) (c : ℚ) (hc : 0 ≤ c)
    (fuel i : Nat) (h6 : 6 ≤ i) (hfi : f i = PFloat.val c) :
    adaptiveGo f (fuel + 1) i 5 (List.replicate i (PFloat.val c))
      = List.replicate (i + 1) (PFloat.val c) := by
  obtain ⟨j, rfl⟩ : ∃ j, i = j + 1 := ⟨i - 1, by omega⟩
  rw [adaptiveGo_succ, hfi, ← List.replicate_succ']
  rw [if_pos ⟨esCond_replicate j c hc, by omega⟩]
  rw [if_pos (by omega)]

/-- On a dataset of at least 12 points whose per-point score is a constant
nonnegative `c`, the adaptive sampling loop processes exactly the points of
index 0 through 11 and stops: warm-up through index 5, streak 1 through 6 at
indices 6 through 11, break when the streak exceeds 5. -/
theorem adaptiveLoop_const (c : ℚ) (hc : 0 ≤ c) (f : Nat → PFloat)
    (hf : ∀ i, i < 12 → f i = PFloat.val c) (m : Nat) :
    adaptiveLoop f (m + 12) = List.replicate 12 (PFloat.val c) := by
  have w0 := adaptiveGo_step_warm f c (m + 11) 0 0 (by omega) (hf 0 (by omega))
  have w1 := adaptiveGo_step_warm f c (m + 10) 1 0 (by omega) (hf 1 (by omega))
  have w2 := adaptiveGo_step_warm f c (m + 9) 2 0 (by omega) (hf 2 (by omega))
  have w3 := adaptiveGo_step_warm f c (m + 8) 3 0 (by omega) (hf 3 (by omega))
  have w4 := adaptiveGo_step_warm f c (m + 7) 4 0 (by omega) (hf 4 (by omega))
  have w5 := adaptiveGo_step_warm f c (m + 6) 5 0 (by omega) (hf 5 (by omega))
  have s6 := adaptiveGo_step_streak f c hc (m + 5) 6 0 (by omega) (by omega)
    (hf 6 (by omega))
  have s7 := adaptiveGo_step_streak f c hc (m + 4) 7 1 (by omega) (by omega)
    (hf 7 (by omega))
  have s8 := adaptiveGo_step_streak f c hc (m + 3) 8 2 (by omega) (by omega)
    (hf 8 (by omega))
  have s9 := adaptiveGo_step_streak f c hc (m + 2) 9 3 (by omega) (by omega)
    (hf 9 (by omega))
  have s10 := adaptiveGo_step_streak f c hc (m + 1) 10 4 (by omega) (by omega)
    (hf 10 (by omega))
  have b11 := adaptiveGo_step_break f c hc m 11 (by omega) (hf 11 (by omega))
  exact w0.trans (w1.trans (w2.trans (w3.trans (w4.trans (w5.trans (s6.trans
    (s7.trans (s8.trans (s9.trans (s10.trans b11))))))))))

/-- Unfolding of the ratio with the default `minus = False`. -/
theorem lipschitz_ratio_false_eq (nrm : List ℚ → ℚ) (x y : List ℚ)
    (f : List ℚ → List ℚ) :
    lipschitz_ratio nrm x y f false
      = fdiv (nrm (vsub (f x) (f y))) (nrm (vsub x y)) := rfl

/-- Element lookup in a map over an index range. -/
theorem getD_range_map {α : Type} (g : Nat → α) (k i : Nat) (d : α)
    (h : i < k) : (((List.range k).map g).getD i d) = g i := by
  rw [List.getD_eq_getElem?_getD, List.getElem?_map, List.getElem?_range h]
  rfl

/-- Per-point score of the robustness compute path (evaluation_measures.py
lines 112-121). The inner optimizer `gp_minimize` is external skopt code,
modelled from the spec: it returns the best point it found (`res['x']`,
abstracted as `choose i` for data point `i`) together with the objective
value at that point (`res['fun']`), so `lip = -res['fun']` is the negation
of the objective `lipschitz_ratio(x, ., function=exp, reshape=orig_shape,
minus=True)` evaluated at the chosen point (`reshape` is the identity on
these one-dimensional points). -/
def lipAt (nrm : List ℚ → ℚ) (X : List (List ℚ)) (exp : List ℚ → List ℚ)
    (choose : Nat → List ℚ) (i : Nat) : PFloat :=
  PFloat.neg (lipschitz_ratio nrm (X.getD i []) (choose i) exp true)

/-- Compute path of `compute_lipschitz_robustness` (lines 107-134): the
adaptive sampling loop over the per-point scores, paired with the
adversarial points `x_opts` accumulated in lockstep (the source appends one
`x_opt` per processed point, so `x_opts` is the chosen point at each
processed index). -/
def computeRobustness (nrm : List ℚ → ℚ) (X : List (List ℚ))
    (exp : List ℚ → List ℚ) (choose : Nat → List ℚ) :
    List PFloat × List (List ℚ) :=
  (adaptiveLoop (lipAt nrm X exp choose) X.length,
    (List.range (adaptiveLoop (lipAt nrm X exp choose) X.length).length).map choose)

/-- Replay path of `compute_lipschitz_robustness` (lines 100-105): one ratio
per cached adversarial point, with no early stop; `minus` and `reshape` take
their default values. -/
def replayRobustness (nrm : List ℚ → ℚ) (X : List (List ℚ))
    (x_opts : List (List ℚ)) (exp : List ℚ → List ℚ) : List PFloat :=
  (List.range x_opts.length).map
    (fun i => lipschitz_ratio nrm (X.getD i []) (x_opts.getD i []) exp false)

/-- Embedding of `compute_lipschitz_robustness` (lines 62-140) with the
result cache made explicit: `cache` holds the pickled `x_opts` artifact for
the `(xai_sol, session_id)` key when the file exists. Returns the score
together with the cache state after the call: the compute path persists its
`x_opts` (the file did not exist), the replay path leaves the artifact
untouched. -/
def robustnessRun (nrm : List ℚ → ℚ) (cache : Option (List (List ℚ)))
    (X : List (List ℚ)) (exp : List ℚ → List ℚ) (choose : Nat → List ℚ) :
    PFloat × List (List ℚ) :=
  match cache with
  | some x_opts => (pmean (replayRobustness nrm X x_opts exp), x_opts)
  | none =>
    (pmean (computeRobustness nrm X exp choose).1,
      (computeRobustness nrm X exp choose).2)

/-- C6: when the robustness cache artifact exists, the replay path computes
`ratio(X[i], x_opts[i], exp)` for every cached adversarial point (no early
stop), and — the explain function being deterministic — the resulting
per-point scores coincide with the compute path's scores (each compute-path
score is `-res.fun`, the ratio at the chosen point), so the replayed run
returns exactly the score the original compute-path run returned. -/
theorem robustness_cache_replay (nrm : List ℚ → ℚ) (X : List (List ℚ))
    (exp : List ℚ → List ℚ) (choose : Nat → List ℚ) :
    replayRobustness nrm X (computeRobustness nrm X exp choose).2 exp
        = (computeRobustness nrm X exp choose).1 ∧
    (replayRobustness nrm X (computeRobustness nrm X exp choose).2 exp).length
        = (computeRobustness nrm X exp choose).2.length ∧
    (robustnessRun nrm (some ((computeRobustness nrm X exp choose).2)) X exp
        choose).1
      = (robustnessRun nrm none X exp choose).1 := by
  obtain ⟨k, hk, hloop⟩ := adaptiveLoop_range (lipAt nrm X exp choose) X.length
  have hlips : (computeRobustness nrm X exp choose).1
      = (List.range k).map (lipAt nrm X exp choose) := hloop
  have hL : (computeRobustness nrm X exp choose).1.length = k := by
    rw [hlips, List.length_map, List.length_range]
  have hx2 : (computeRobustness nrm X exp choose).2
      = (List.range k).map choose := by
    show (List.range (computeRobustness nrm X exp choose).1.length).map choose = _
    rw [hL]
  have hrep : replayRobustness nrm X (computeRobustness nrm X exp choose).2 exp
      = (List.range k).map (lipAt nrm X exp choose) := by
    simp only [replayRobustness, hx2, List.length_map, List.length_range]
    apply List.map_congr_left
    intro i hi
    rw [List.mem_range] at hi
    rw [getD_range_map choose k i [] hi]
    exact (lipschitz_ratio_true_neg nrm (X.getD i []) (choose i) exp).symm
  have hfirst : replayRobustness nrm X (computeRobustness nrm X exp choose).2 exp
      = (computeRobustness nrm X exp choose).1 := hrep.trans hlips.symm
  refine ⟨hfirst, ?_, ?_⟩
  · rw [hfirst, hL, hx2, List.length_map, List.length_range]
  · show pmean (replayRobustness nrm X (computeRobustness nrm X exp choose).2 exp)
        = pmean (computeRobustness nrm X exp choose).1
    rw [hfirst]

/-- C8: when the compute path stops early after processing `k < N` dataset
points, exactly those `k` adversarial points are persisted (the cache is the
chosen point at each processed index, one per processed point), a subsequent
run with the same key replays exactly those `k` cached points (the cache is
left unchanged), and the replay never touches the dataset beyond index
`k - 1`: its output only depends on the first `k` dataset points. -/
theorem robustness_earlystop_cache (nrm : List ℚ → ℚ) (X : List (List ℚ))
    (exp : List ℚ → List ℚ) (choose : Nat → List ℚ)
    (hk : (computeRobustness nrm X exp choose).1.length < X.length) :
    (computeRobustness nrm X exp choose).2.length
        = (computeRobustness nrm X exp choose).1.length ∧
    (robustnessRun nrm (some ((computeRobustness nrm X exp choose).2)) X exp
        choose).2
      = (computeRobustness nrm X exp choose).2 ∧
    (replayRobustness nrm X (computeRobustness nrm X exp choose).2 exp).length
        = (computeRobustness nrm X exp choose).1.length ∧
    ∀ X2 : List (List ℚ),
      X2.take ((computeRobustness nrm X exp choose).1.length)
          = X.take ((computeRobustness nrm X exp choose).1.length) →
      replayRobustness nrm X2 (computeRobustness nrm X exp choose).2 exp
        = replayRobustness nrm X (computeRobustness nrm X exp choose).2 exp := by
  have hlen2 : (computeRobustness nrm X exp choose).2.length
      = (computeRobustness nrm X exp choose).1.length := by
    show ((List.range (computeRobustness nrm X exp choose).1.length).map
      choose).length = _
    rw [List.length_map, List.length_range]
  refine ⟨hlen2, rfl, ?_, ?_⟩
  · show ((List.range (computeRobustness nrm X exp choose).2.length).map _).length = _
    rw [List.length_map, List.length_range, hlen2]
  · intro X2 htake
    simp only [replayRobustness]
    apply List.map_congr_left
    intro i hi
    rw [List.mem_range, hlen2] at hi
    have hgd : X2.getD i [] = X.getD i [] := by
      rw [List.getD_eq_getElem?_getD, List.getD_eq_getElem?_getD]
      rw [← List.getElem?_take_of_lt (l := X2) hi, htake,
        List.getElem?_take_of_lt (l := X) hi]
    rw [hgd]

/-- Concrete 13-point one-dimensional dataset used by witnesses. -/
def X13 : List (List ℚ) := (List.range 13).map (fun i => [(i : ℚ)])

/-- Constant explanation function used by witnesses: every per-point ratio
it induces is `0`. -/
def expConst : List ℚ → List ℚ := fun _ => [0]

/-- Concrete inner-optimizer model used by witnesses: for data point `i` it
returns the distinct point `[i + 100]`, so denominators never vanish. -/
def chooseShift : Nat → List ℚ := fun i => [(i : ℚ) + 100]

/-- Witness for C8: on the concrete 13-point dataset with constant zero
scores the compute path stops after 12 points, strictly fewer than 13. -/
theorem robustness_earlystop_cache_witness :
    (computeRobustness sumSq X13 expConst chooseShift).1.length < X13.length ∧
    ((computeRobustness sumSq X13 expConst chooseShift).2.length
        = (computeRobustness sumSq X13 expConst chooseShift).1.length ∧
      (robustnessRun sumSq
          (some ((computeRobustness sumSq X13 expConst chooseShift).2)) X13
          expConst chooseShift).2
        = (computeRobustness sumSq X13 expConst chooseShift).2 ∧
      (replayRobustness sumSq X13
          (computeRobustness sumSq X13 expConst chooseShift).2 expConst).length
        = (computeRobustness sumSq X13 expConst chooseShift).1.length ∧
      ∀ X2 : List (List ℚ),
        X2.take ((computeRobustness sumSq X13 expConst chooseShift).1.length)
            = X13.take ((computeRobustness sumSq X13 expConst chooseShift).1.length) →
        replayRobustness sumSq X2
            (computeRobustness sumSq X13 expConst chooseShift).2 expConst
          = replayRobustness sumSq X13
              (computeRobustness sumSq X13 expConst chooseShift).2 expConst) :=
  ⟨by with_unfolding_all decide,
    robustness_earlystop_cache sumSq X13 expConst chooseShift
      (by with_unfolding_all decide)⟩

/-- C4: on a dataset of at least 12 points whose per-point score is the same
constant `c` (the score of point `i` being `-res.fun`, the ratio at the
chosen adversarial point), the adaptive sampling loop of the robustness
compute path — early stop being hard-coded on — increments the stable streak
only once the index exceeds 5, breaks once the streak exceeds 5, hence
terminates at dataset index 11 having processed exactly 12 points, and the
returned score `np.mean(list_lip)` equals `c` exactly. Nonnegativity of the
constant is forced by the hypotheses: the norm is nonnegative (as the
Euclidean norm is), so every realizable constant per-point ratio is
nonnegative. The infidelity compute path runs the identical loop skeleton
(`adaptiveLoop`) over its own per-point scores, which are means of squares
and nonnegative as well. -/
theorem robustness_constant_early_stop (nrm : List ℚ → ℚ) (X : List (List ℚ))
    (exp : List ℚ → List ℚ) (choose : Nat → List ℚ) (c : ℚ)
    (hnrm : ∀ v, 0 ≤ nrm v)
    (hconst : ∀ i, i < X.length → lipAt nrm X exp choose i = PFloat.val c)
    (hn : 12 ≤ X.length) :
    (computeRobustness nrm X exp choose).1.length = 12 ∧
    pmean (computeRobustness nrm X exp choose).1 = PFloat.val c := by
  have h0 : lipAt nrm X exp choose 0 = PFloat.val c := hconst 0 (by omega)
  have hc : 0 ≤ c := by
    have h0f : fdiv (nrm (vsub (exp (X.getD 0 [])) (exp (choose 0))))
        (nrm (vsub (X.getD 0 []) (choose 0))) = PFloat.val c := by
      rw [← lipschitz_ratio_false_eq, ← lipschitz_ratio_true_neg]
      exact h0
    rw [fdiv] at h0f
    by_cases hb : nrm (vsub (X.getD 0 []) (choose 0)) = 0
    · rw [if_pos hb] at h0f
      split_ifs at h0f
    · rw [if_neg hb] at h0f
      have hbpos : 0 < nrm (vsub (X.getD 0 []) (choose 0)) :=
        lt_of_le_of_ne (hnrm _) (Ne.symm hb)
      have hceq : nrm (vsub (exp (X.getD 0 [])) (exp (choose 0)))
          / nrm (vsub (X.getD 0 []) (choose 0)) = c := PFloat.val.inj h0f
      rw [← hceq]
      exact div_nonneg (hnrm _) (le_of_lt hbpos)
  obtain ⟨m, hm⟩ : ∃ m, X.length = m + 12 := ⟨X.length - 12, by omega⟩
  have hloop : (computeRobustness nrm X exp choose).1
      = List.replicate 12 (PFloat.val c) := by
    show adaptiveLoop (lipAt nrm X exp choose) X.length = _
    rw [hm]
    exact adaptiveLoop_const c hc _ (fun i hi => hconst i (by omega)) m
  constructor
  · rw [hloop, List.length_replicate]
  · rw [hloop]
    exact pmean_replicate 11 c

/-- Witness for C4 on the concrete 13-point dataset: all per-point scores
equal `0`, the loop processes exactly 12 points and the returned mean is
exactly `0`. -/
theorem robustness_constant_early_stop_witness :
    (∀ v, 0 ≤ sumSq v) ∧
    (∀ i, i < X13.length → lipAt sumSq X13 expConst chooseShift i = PFloat.val 0) ∧
    12 ≤ X13.length ∧
    ((computeRobustness sumSq X13 expConst chooseShift).1.length = 12 ∧
      pmean (computeRobustness sumSq X13 expConst chooseShift).1 = PFloat.val 0) :=
  ⟨sumSq_nonneg, by with_unfolding_all decide, by with_unfolding_all decide,
    robustness_constant_early_stop sumSq X13 expConst chooseShift 0 sumSq_nonneg
      (by with_unfolding_all decide) (by with_unfolding_all decide)⟩

/-- Context dictionary threaded through the core, with the entries it reads
or writes: the dataset `X`, labels `y`, `feature_names`, the external
model's single-row `predict` (opaque), the evaluation `question`, the
verbosity flag, the scalarization settings `scaling` and `weights`, and the
`explainer` handle slot written by `evaluate` (the handle itself is opaque
state built by external explainer libraries). -/
structure Ctx where
  X : List (List ℚ)
  y : List ℚ
  feature_names : List String
  model : List ℚ → ℚ
  question : String
  verbose : Bool
  scaling : String
  weights : List ℚ
  explainer : Option Unit

/-- Hyperparameter configuration: `evaluate` itself reads only
`parameters['nfeatures']`; the measure-specific entries are consumed inside
the abstracted measures. -/
structure Params where
  nfeatures : Nat

/-- Python-level errors the embedded functions can raise. `unboundLocal`
covers both `UnboundLocalError` on a local read before assignment and the
`NameError` of an undefined name. -/
inductive PyErr where
  | unboundLocal : PyErr
  | reshapeError : PyErr
  | indexError : PyErr
deriving DecidableEq

/-- Result of one `evaluate` call: the returned score or the raised error,
the context dictionary after the call, and how many times each of the two
Explainer Adapter entry points ran (`set_up_explainer`, `get_local_exp`). -/
structure EvalOut where
  result : Except PyErr ℚ
  ctx : Ctx
  setupCalls : Nat
  explainCalls : Nat

/-- Embedding of `evaluate` (evaluation_measures.py lines 226-260). The two
measure computations are the separate top-level functions
`compute_lipschitz_robustness` and `compute_infidelity`; the dispatcher is
embedded generically over them: `robustFn` and `fidFn` return the score and
the number of `get_local_exp` calls they make (per the source, lines 62-224,
both measures only read the context and never write any entry of it, so they
are passed as score functions of the context). The Python local `score`
starts unbound (`none`); `return score` raises `UnboundLocalError` when no
branch assigned it. Whenever the kind is LIME or SHAP, `set_up_explainer`
runs first — before any property dispatch — and its handle is stored in
`context['explainer']` (source line 247-248); `set_up_explainer` itself
(XAI_solutions.py lines 9-49) only reads the context. The dispatch reads
`context['question']` from the same dictionary; since only the `explainer`
entry was written, that read is taken from the incoming context. -/
def evaluate (robustFn fidFn : Params → Ctx → ℚ × Nat) (xai_sol : String)
    (parameters : Params) (property : String) (context : Ctx) : EvalOut :=
  let isLS : Bool := xai_sol == "LIME" || xai_sol == "SHAP"
  let ctx1 : Ctx := if isLS then { context with explainer := some () } else context
  let score : Option (ℚ × Nat) :=
    if property == "robustness" then
      if context.question == "Why" then some (robustFn parameters ctx1) else none
    else if property == "fidelity" then
      if context.question == "Why" then some (fidFn parameters ctx1) else none
    else if property == "conciseness" then
      if context.question == "Why" then some ((parameters.nfeatures : ℚ), 0) else none
    else none
  { result := match score with
      | some s => Except.ok s.1
      | none => Except.error PyErr.unboundLocal
    ctx := ctx1
    setupCalls := if isLS then 1 else 0
    explainCalls := match score with
      | some s => s.2
      | none => 0 }

/-- Concrete context with `question = "How"`, used by counterexamples. -/
def ctxHow : Ctx :=
  { X := [[1]], y := [0], feature_names := ["f0"], model := fun _ => 0,
    question := "How", verbose := false, scaling := "MinMax", weights := [1],
    explainer := none }

/-- C2 counterexample: at the concrete input `property = "robustness"`,
`context['question'] = "How"`, no branch assigns `score`, and
`evaluate` raises `UnboundLocalError` at `return score` — it does not
return normally, contrary to the claim that the case is treated as not
applicable without an error. -/
theorem evaluate_non_why_raises_cex :
    (evaluate (fun _ _ => (0, 0)) (fun _ _ => (0, 0)) "LIME" ⟨4⟩ "robustness"
        ctxHow).result = Except.error PyErr.unboundLocal := by
  with_unfolding_all rfl

/-- C2 amended: for every property among robustness, fidelity and
conciseness and every context whose question entry is not `"Why"`,
`evaluate` yields no score — but instead of returning a not-applicable
result it raises `UnboundLocalError` at `return score`, since no branch of
the dispatch assigned the local `score`. -/
theorem evaluate_non_why_unbound (robustFn fidFn : Params → Ctx → ℚ × Nat)
    (xai_sol : String) (p : Params) (property : String) (ctx : Ctx)
    (hprop : property = "robustness" ∨ property = "fidelity" ∨
      property = "conciseness")
    (hq : ctx.question ≠ "Why") :
    (evaluate robustFn fidFn xai_sol p property ctx).result
      = Except.error PyErr.unboundLocal := by
  have hqb : (ctx.question == "Why") = false := beq_eq_false_iff_ne.mpr hq
  rcases hprop with h | h | h <;> subst h <;> simp [evaluate, hqb]

/-- Witness for the C2 amended theorem at the concrete input
`property = "fidelity"`, `question = "How"`. -/
theorem evaluate_non_why_unbound_witness :
    ("fidelity" = "robustness" ∨ "fidelity" = "fidelity" ∨
      "fidelity" = "conciseness") ∧
    ctxHow.question ≠ "Why" ∧
    (evaluate (fun _ _ => (0, 0)) (fun _ _ => (0, 0)) "SHAP" ⟨2⟩ "fidelity"
        ctxHow).result = Except.error PyErr.unboundLocal :=
  ⟨Or.inr (Or.inl rfl), by decide,
    evaluate_non_why_unbound (fun _ _ => (0, 0)) (fun _ _ => (0, 0)) "SHAP" ⟨2⟩
      "fidelity" ctxHow (Or.inr (Or.inl rfl)) (by decide)⟩

/-- Concrete context with `question = "Why"`, used by counterexamples and
witnesses. -/
def ctxWhy : Ctx :=
  { X := [[1]], y := [0], feature_names := ["f0"], model := fun _ => 0,
    question := "Why", verbose := false, scaling := "MinMax", weights := [1],
    explainer := none }

/-- C5 counterexample: evaluating conciseness for the LIME kind at a
concrete context does return `parameters['nfeatures']` as the score, but the
Explainer Adapter initialization `set_up_explainer` is invoked once — it runs
before the property dispatch for every LIME/SHAP evaluation — contradicting
the claim that no adapter entry point is called. -/
theorem evaluate_conciseness_setup_cex :
    (evaluate (fun _ _ => (0, 0)) (fun _ _ => (0, 0)) "LIME" ⟨3⟩ "conciseness"
        ctxWhy).setupCalls = 1 ∧
    (evaluate (fun _ _ => (0, 0)) (fun _ _ => (0, 0)) "LIME" ⟨3⟩ "conciseness"
        ctxWhy).result = Except.ok 3 := by
  constructor
  · with_unfolding_all rfl
  · with_unfolding_all rfl

/-- C5 amended: evaluating the conciseness property (question `"Why"`)
returns `parameters['nfeatures']` as the score and makes no `get_local_exp`
(explain) call; however `set_up_explainer` (initialize) is invoked exactly
once whenever the explainer kind is LIME or SHAP, because the setup runs at
the start of every `evaluate` call, before the property dispatch. For other
kinds no adapter entry point is called. -/
theorem evaluate_conciseness (robustFn fidFn : Params → Ctx → ℚ × Nat)
    (xai_sol : String) (p : Params) (ctx : Ctx)
    (hq : ctx.question = "Why") :
    (evaluate robustFn fidFn xai_sol p "conciseness" ctx).result
        = Except.ok (p.nfeatures : ℚ) ∧
    (evaluate robustFn fidFn xai_sol p "conciseness" ctx).explainCalls = 0 ∧
    (evaluate robustFn fidFn xai_sol p "conciseness" ctx).setupCalls
        = (if xai_sol = "LIME" ∨ xai_sol = "SHAP" then 1 else 0) := by
  have hqb : (ctx.question == "Why") = true := beq_iff_eq.mpr hq
  refine ⟨?_, ?_, ?_⟩ <;> simp [evaluate, hqb]

/-- Witness for the C5 amended theorem at a concrete SHAP evaluation. -/
theorem evaluate_conciseness_witness :
    ctxWhy.question = "Why" ∧
    ((evaluate (fun _ _ => (0, 0)) (fun _ _ => (0, 0)) "SHAP" ⟨2⟩ "conciseness"
        ctxWhy).result = Except.ok ((2 : Nat) : ℚ) ∧
      (evaluate (fun _ _ => (0, 0)) (fun _ _ => (0, 0)) "SHAP" ⟨2⟩ "conciseness"
        ctxWhy).explainCalls = 0 ∧
      (evaluate (fun _ _ => (0, 0)) (fun _ _ => (0, 0)) "SHAP" ⟨2⟩ "conciseness"
        ctxWhy).setupCalls
        = (if ("SHAP" : String) = "LIME" ∨ ("SHAP" : String) = "SHAP" then 1 else 0)) :=
  ⟨rfl, evaluate_conciseness (fun _ _ => (0, 0)) (fun _ _ => (0, 0)) "SHAP" ⟨2⟩
    ctxWhy rfl⟩

/-- C9: `evaluate` writes at most the `explainer` entry of the context
dictionary: every other entry — the dataset `X`, labels `y`,
`feature_names`, `model`, `question`, `verbose`, `scaling`, `weights` — is
unchanged after the call, for every explainer kind, property and context.
The measures it triggers are embedded as read-only score functions, which is
faithful to the source: `compute_lipschitz_robustness` and
`compute_infidelity` (evaluation_measures.py lines 62-224) and
`set_up_explainer`/`get_local_exp` (XAI_solutions.py) never assign any
context entry, and `linear_scalarization` only reads `context["scaling"]`
and `context["weights"]` while mutating the separate score-history
dictionary. -/
theorem evaluate_context_frame (robustFn fidFn : Params → Ctx → ℚ × Nat)
    (xai_sol : String) (p : Params) (property : String) (ctx : Ctx) :
    (evaluate robustFn fidFn xai_sol p property ctx).ctx.X = ctx.X ∧
    (evaluate robustFn fidFn xai_sol p property ctx).ctx.y = ctx.y ∧
    (evaluate robustFn fidFn xai_sol p property ctx).ctx.feature_names
      = ctx.feature_names ∧
    (evaluate robustFn fidFn xai_sol p property ctx).ctx.model = ctx.model ∧
    (evaluate robustFn fidFn xai_sol p property ctx).ctx.question
      = ctx.question ∧
    (evaluate robustFn fidFn xai_sol p property ctx).ctx.verbose
      = ctx.verbose ∧
    (evaluate robustFn fidFn xai_sol p property ctx).ctx.scaling
      = ctx.scaling ∧
    (evaluate robustFn fidFn xai_sol p property ctx).ctx.weights
      = ctx.weights := by
  refine ⟨?_, ?_, ?_, ?_, ?_, ?_, ?_, ?_⟩ <;>
    · simp only [evaluate]
      split <;> rfl

/-- Scaled-score entry of the score history: Python stores either the
integer `0` (property with fewer than two recorded scores) or the list of
scaled scores. -/
inductive ScaledVal where
  | num : ℚ → ScaledVal
  | vec : List ℚ → ScaledVal
deriving DecidableEq

/-- Score-history dictionary: the per-property score lists, the
per-property `scaled_<property>` entries, and the `aggregated_score` list. -/
structure ScoreHist where
  scores : String → List ℚ
  scaled : String → ScaledVal
  aggregated_score : List ℚ

/-- Update of the `scaled_<p>` entry. -/
def setScaled (h : ScoreHist) (p : String) (v : ScaledVal) : ScoreHist :=
  { h with scaled := fun q => if q = p then v else h.scaled q }

/-- Update of the score list of property `p` (used to state that a
single-score property contributes nothing: its value is irrelevant). -/
def setScores (h : ScoreHist) (p : String) (l : List ℚ) : ScoreHist :=
  { h with scores := fun q => if q = p then l else h.scores q }

/-- One iteration of the `linear_scalarization` property loop
(evaluation_measures.py lines 286-303), acting on the running history; `i`
is the `enumerate` index and `nprops` is `len(properties_list)`. The two
sklearn scalers are external library code, abstracted as
`scalerF scaling history` (the `fit_transform` over the property's full
score history, written into `scaled_<p>` on line 292). A scaling mode other
than `"MinMax"`/`"Std"` leaves the `scaler` name unbound (raised at the
`fit_transform` line, before the scaled entry is set); the numpy `reshape`
on the `+=` line (301) raises unless the scaled history length matches the
aggregated length (the scaled entry was already assigned on 292);
`weights[i]` raises `IndexError` past the end of the weights list. An error
aborts the call with the mutations made so far kept. -/
def scalStep (scalerF : String → List ℚ → List ℚ) (ctx : Ctx) (nprops : Nat)
    (h : ScoreHist) (i : Nat) (p : String) : ScoreHist × Option PyErr :=
  if 1 < (h.scores p).length then
    if ctx.scaling == "MinMax" || ctx.scaling == "Std" then
      if (scalerF ctx.scaling (h.scores p)).length
          = h.aggregated_score.length then
        if i < ctx.weights.length then
          ({ (setScaled h p (ScaledVal.vec (scalerF ctx.scaling (h.scores p))))
              with aggregated_score :=
                (List.zipWith
                  (fun a s => a + s * ctx.weights.getD i 0 / (nprops : ℚ))
                  h.aggregated_score (scalerF ctx.scaling (h.scores p))) },
            none)
        else (setScaled h p (ScaledVal.vec (scalerF ctx.scaling (h.scores p))),
          some PyErr.indexError)
      else (setScaled h p (ScaledVal.vec (scalerF ctx.scaling (h.scores p))),
        some PyErr.reshapeError)
    else (h, some PyErr.unboundLocal)
  else (setScaled h p (ScaledVal.num 0), none)

/-- Property loop of `linear_scalarization` over
`enumerate(properties_list)`, stopping at the first raised error. -/
def scalLoop (scalerF : String → List ℚ → List ℚ) (ctx : Ctx) (nprops : Nat) :
    ScoreHist → Nat → List String → ScoreHist × Option PyErr
  | h, _, [] => (h, none)
  | h, i, p :: rest =>
    match scalStep scalerF ctx nprops h i p with
    | (h1, none) => scalLoop scalerF ctx nprops h1 (i + 1) rest
    | (h1, some e) => (h1, some e)

/-- Embedding of `linear_scalarization` (evaluation_measures.py lines
263-307): `aggregated_score` is first replaced by a zero array one element
longer (line 284), then each property with at least two recorded scores is
scaled over its full history and added into the aggregated array with
weight `weights[i] / len(properties_list)`, while a property with fewer
than two recorded scores gets `scaled_<property> = 0` and is skipped.
Returns the history after the call and the raised error, if any (the final
conversion of the aggregated array back to a list, line 305, is the
identity here). -/
def linear_scalarization (scalerF : String → List ℚ → List ℚ)
    (score_hist : ScoreHist) (properties_list : List String) (context : Ctx) :
    ScoreHist × Option PyErr :=
  scalLoop scalerF context properties_list.length
    { score_hist with aggregated_score :=
        List.replicate (score_hist.aggregated_score.length + 1) 0 }
    0 properties_list

/-- Scalarization steps never write any property's score list. -/
theorem scalStep_scores (scalerF : String → List ℚ → List ℚ) (ctx : Ctx)
    (nprops : Nat) (h : ScoreHist) (i : Nat) (p : String) :
    ((scalStep scalerF ctx nprops h i p).1).scores = h.scores := by
  unfold scalStep
  split_ifs <;> rfl

/-- Scalarization steps preserve the aggregated length (the contribution is
added elementwise after the reshape check). -/
theorem scalStep_agg_length (scalerF : String → List ℚ → List ℚ) (ctx : Ctx)
    (nprops : Nat) (h : ScoreHist) (i : Nat) (p : String) :
    ((scalStep scalerF ctx nprops h i p).1).aggregated_score.length
      = h.aggregated_score.length := by
  unfold scalStep
  split_ifs with hA hb hlen hi <;> try rfl
  show (List.zipWith
      (fun a s => a + s * ctx.weights.getD i 0 / (nprops : ℚ))
      h.aggregated_score (scalerF ctx.scaling (h.scores p))).length
    = h.aggregated_score.length
  rw [List.length_zipWith, hlen, min_self]

/-- Characterization of a step on a property with at least two scores when
nothing raises. -/
theorem scalStep_big (scalerF : String → List ℚ → List ℚ) (ctx : Ctx)
    (nprops : Nat) (h : ScoreHist) (i : Nat) (p : String)
    (hA : 1 < (h.scores p).length)
    (hb : (ctx.scaling == "MinMax" || ctx.scaling == "Std") = true)
    (hlen : (scalerF ctx.scaling (h.scores p)).length
      = h.aggregated_score.length)
    (hi : i < ctx.weights.length) :
    scalStep scalerF ctx nprops h i p =
      ({ (setScaled h p (ScaledVal.vec (scalerF ctx.scaling (h.scores p))))
          with aggregated_score :=
            (List.zipWith
              (fun a s => a + s * ctx.weights.getD i 0 / (nprops : ℚ))
              h.aggregated_score (scalerF ctx.scaling (h.scores p))) },
        none) := by
  unfold scalStep
  rw [if_pos hA, if_pos hb, if_pos hlen, if_pos hi]

/-- Characterization of a step on a property with fewer than two scores. -/
theorem scalStep_small (scalerF : String → List ℚ → List ℚ) (ctx : Ctx)
    (nprops : Nat) (h : ScoreHist) (i : Nat) (p : String)
    (hA : ¬ 1 < (h.scores p).length) :
    scalStep scalerF ctx nprops h i p
      = (setScaled h p (ScaledVal.num 0), none) := by
  unfold scalStep
  rw [if_neg hA]

/-- The scalarization loop preserves the aggregated length on every path,
error or not (an aborted call keeps the mutations made so far). -/
theorem scalLoop_agg_length (scalerF : String → List ℚ → List ℚ) (ctx : Ctx)
    (nprops : Nat) :
    ∀ (rest : List String) (i : Nat) (h : ScoreHist),
      (scalLoop scalerF ctx nprops h i rest).1.aggregated_score.length
        = h.aggregated_score.length := by
  intro rest
  induction rest with
  | nil => intro i h; rfl
  | cons r rest ih =>
    intro i h
    have hlen := scalStep_agg_length scalerF ctx nprops h i r
    rcases hstep : scalStep scalerF ctx nprops h i r with ⟨s1, e1⟩
    rw [hstep] at hlen
    cases e1 with
    | none =>
      have heq : scalLoop scalerF ctx nprops h i (r :: rest)
          = scalLoop scalerF ctx nprops s1 (i + 1) rest := by
        simp only [scalLoop, hstep]
      rw [heq, ih (i + 1) s1]
      exact hlen
    | some e =>
      have heq : scalLoop scalerF ctx nprops h i (r :: rest) = (s1, some e) := by
        simp only [scalLoop, hstep]
      rw [heq]
      exact hlen

/-- The scalarization loop under the benign side conditions: a known scaling
mode, a length-preserving scaler, enough weights, and score histories one
longer than the incoming aggregated array for every property that will be
scaled. Then no error is raised, the aggregated length is preserved, no
score list is written, scaled entries of properties outside the remaining
list are untouched, and every remaining property with at most one recorded
score ends with `scaled_<q> = 0`. -/
theorem scalLoop_ok (scalerF : String → List ℚ → List ℚ) (ctx : Ctx)
    (nprops : Nat)
    (hsl : ∀ s v, (scalerF s v).length = v.length)
    (hscale : ctx.scaling = "MinMax" ∨ ctx.scaling = "Std") :
    ∀ (rest : List String) (i : Nat) (h : ScoreHist),
      i + rest.length ≤ ctx.weights.length →
      (∀ q ∈ rest, 1 < (h.scores q).length →
        (h.scores q).length = h.aggregated_score.length) →
      (scalLoop scalerF ctx nprops h i rest).2 = none ∧
      (scalLoop scalerF ctx nprops h i rest).1.scores = h.scores ∧
      (∀ q, q ∉ rest →
        (scalLoop scalerF ctx nprops h i rest).1.scaled q = h.scaled q) ∧
      (∀ q, q ∈ rest → (h.scores q).length ≤ 1 →
        (scalLoop scalerF ctx nprops h i rest).1.scaled q
          = ScaledVal.num 0) := by
  have hb : (ctx.scaling == "MinMax" || ctx.scaling == "Std") = true := by
    rcases hscale with hs | hs <;> simp [hs]
  intro rest
  induction rest with
  | nil =>
    intro i h hw hinv
    exact ⟨rfl, rfl, fun q hq => rfl, fun q hq => absurd hq (List.not_mem_nil q)⟩
  | cons r rest ih =>
    intro i h hw hinv
    have hw2 : i + 1 + rest.length ≤ ctx.weights.length := by
      simp only [List.length_cons] at hw; omega
    have hi : i < ctx.weights.length := by
      simp only [List.length_cons] at hw; omega
    by_cases hA : 1 < (h.scores r).length
    · have hlen : (scalerF ctx.scaling (h.scores r)).length
          = h.aggregated_score.length :=
        (hsl _ _).trans (hinv r (List.mem_cons_self r rest) hA)
      have hstep := scalStep_big scalerF ctx nprops h i r hA hb hlen hi
      have hrun : scalLoop scalerF ctx nprops h i (r :: rest)
          = scalLoop scalerF ctx nprops
            ({ (setScaled h r (ScaledVal.vec (scalerF ctx.scaling (h.scores r))))
                with aggregated_score :=
                  (List.zipWith
                    (fun a s => a + s * ctx.weights.getD i 0 / (nprops : ℚ))
                    h.aggregated_score (scalerF ctx.scaling (h.scores r))) })
            (i + 1) rest := by
        show (match scalStep scalerF ctx nprops h i r with
          | (h1, none) => scalLoop scalerF ctx nprops h1 (i + 1) rest
          | (h1, some e) => (h1, some e)) = _
        rw [hstep]
      set h2 : ScoreHist :=
        { (setScaled h r (ScaledVal.vec (scalerF ctx.scaling (h.scores r))))
            with aggregated_score :=
              (List.zipWith
                (fun a s => a + s * ctx.weights.getD i 0 / (nprops : ℚ))
                h.aggregated_score (scalerF ctx.scaling (h.scores r))) } with hh2
      have h2scores : h2.scores = h.scores := rfl
      have h2agg : h2.aggregated_score.length = h.aggregated_score.length := by
        rw [hh2]
        show (List.zipWith _ h.aggregated_score
          (scalerF ctx.scaling (h.scores r))).length = _
        rw [List.length_zipWith, hlen, min_self]
      obtain ⟨ihe, ihs, ihu, ihz⟩ := ih (i + 1) h2 hw2 (by
        intro q hq hq1
        rw [h2scores] at hq1 ⊢
        rw [h2agg]
        exact hinv q (List.mem_cons_of_mem r hq) hq1)
      rw [hrun]
      refine ⟨ihe, ihs.trans h2scores, ?_, ?_⟩
      · intro q hq
        have hqr : q ≠ r := fun hqr => hq (hqr ▸ List.mem_cons_self r rest)
        have hqrest : q ∉ rest := fun hqq => hq (List.mem_cons_of_mem r hqq)
        rw [ihu q hqrest, hh2]
        show (if q = r then _ else h.scaled q) = h.scaled q
        rw [if_neg hqr]
      · intro q hq hq1
        rcases List.mem_cons.mp hq with hqr | hqrest
        · exact absurd (hqr ▸ hq1) (by omega)
        · exact ihz q hqrest (by rw [h2scores]; exact hq1)
    · have hstep := scalStep_small scalerF ctx nprops h i r hA
      have hrun : scalLoop scalerF ctx nprops h i (r :: rest)
          = scalLoop scalerF ctx nprops (setScaled h r (ScaledVal.num 0))
            (i + 1) rest := by
        show (match scalStep scalerF ctx nprops h i r with
          | (h1, none) => scalLoop scalerF ctx nprops h1 (i + 1) rest
          | (h1, some e) => (h1, some e)) = _
        rw [hstep]
      have h3scores : (setScaled h r (ScaledVal.num 0)).scores = h.scores := rfl
      obtain ⟨ihe, ihs, ihu, ihz⟩ := ih (i + 1) (setScaled h r (ScaledVal.num 0))
        hw2 (by
          intro q hq hq1
          exact hinv q (List.mem_cons_of_mem r hq) hq1)
      rw [hrun]
      refine ⟨ihe, ihs, ?_, ?_⟩
      · intro q hq
        have hqr : q ≠ r := fun hqr => hq (hqr ▸ List.mem_cons_self r rest)
        have hqrest : q ∉ rest := fun hqq => hq (List.mem_cons_of_mem r hqq)
        rw [ihu q hqrest]
        show (if q = r then _ else h.scaled q) = h.scaled q
        rw [if_neg hqr]
      · intro q hq hq1
        by_cases hqrest : q ∈ rest
        · exact ihz q hqrest hq1
        · rcases List.mem_cons.mp hq with hqr | hq2
          · subst hqr
            rw [ihu q hqrest]
            show (if q = q then ScaledVal.num 0 else h.scaled q) = ScaledVal.num 0
            rw [if_pos rfl]
          · exact absurd hq2 hqrest

/-- One scalarization step reads only the stepped property's score list and
the aggregated array: two histories agreeing outside property `p`, with `p`
holding at most one score in both, produce the same error and the same
aggregated array. -/
theorem scalStep_indep (scalerF : String → List ℚ → List ℚ) (ctx : Ctx)
    (nprops : Nat) (i : Nat) (r p : String) (h h2 : ScoreHist)
    (hagree : ∀ q, q ≠ p → h2.scores q = h.scores q)
    (hagg : h2.aggregated_score = h.aggregated_score)
    (hp1 : (h.scores p).length ≤ 1) (hp2 : (h2.scores p).length ≤ 1) :
    (scalStep scalerF ctx nprops h i r).2
        = (scalStep scalerF ctx nprops h2 i r).2 ∧
    (scalStep scalerF ctx nprops h i r).1.aggregated_score
        = (scalStep scalerF ctx nprops h2 i r).1.aggregated_score := by
  by_cases hr : r = p
  · subst hr
    rw [scalStep_small scalerF ctx nprops h i r (by omega),
      scalStep_small scalerF ctx nprops h2 i r (by omega)]
    exact ⟨rfl, hagg.symm⟩
  · have hs : h2.scores r = h.scores r := hagree r hr
    unfold scalStep
    rw [hs, hagg]
    split_ifs <;> first
      | exact ⟨rfl, rfl⟩
      | exact ⟨rfl, hagg.symm⟩

/-- The scalarization loop is insensitive to the stored value of a property
that holds at most one score in both compared histories: the errors and the
aggregated arrays coincide. -/
theorem scalLoop_indep (scalerF : String → List ℚ → List ℚ) (ctx : Ctx)
    (nprops : Nat) (p : String) :
    ∀ (rest : List String) (i : Nat) (h h2 : ScoreHist),
      (∀ q, q ≠ p → h2.scores q = h.scores q) →
      h2.aggregated_score = h.aggregated_score →
      (h.scores p).length ≤ 1 → (h2.scores p).length ≤ 1 →
      (scalLoop scalerF ctx nprops h i rest).2
          = (scalLoop scalerF ctx nprops h2 i rest).2 ∧
      (scalLoop scalerF ctx nprops h i rest).1.aggregated_score
          = (scalLoop scalerF ctx nprops h2 i rest).1.aggregated_score := by
  intro rest
  induction rest with
  | nil => intro i h h2 hagree hagg hp1 hp2; exact ⟨rfl, hagg.symm⟩
  | cons r rest ih =>
    intro i h h2 hagree hagg hp1 hp2
    obtain ⟨he, ha⟩ :=
      scalStep_indep scalerF ctx nprops i r p h h2 hagree hagg hp1 hp2
    have hsc1 := scalStep_scores scalerF ctx nprops h i r
    have hsc2 := scalStep_scores scalerF ctx nprops h2 i r
    rcases hstep1 : scalStep scalerF ctx nprops h i r with ⟨s1, e1⟩
    rcases hstep2 : scalStep scalerF ctx nprops h2 i r with ⟨s2, e2⟩
    rw [hstep1, hstep2] at he ha
    rw [hstep1] at hsc1
    rw [hstep2] at hsc2
    cases e1 with
    | none =>
      have he2 : e2 = none := he.symm
      subst he2
      have hl1 : scalLoop scalerF ctx nprops h i (r :: rest)
          = scalLoop scalerF ctx nprops s1 (i + 1) rest := by
        simp only [scalLoop, hstep1]
      have hl2 : scalLoop scalerF ctx nprops h2 i (r :: rest)
          = scalLoop scalerF ctx nprops s2 (i + 1) rest := by
        simp only [scalLoop, hstep2]
      rw [hl1, hl2]
      exact ih (i + 1) s1 s2
        (by intro q hq; rw [hsc1, hsc2]; exact hagree q hq)
        (by rw [hsc1, hsc2] at *; exact ha.symm)
        (by rw [hsc1]; exact hp1)
        (by rw [hsc2]; exact hp2)
    | some e =>
      have he2 : e2 = some e := he.symm
      subst he2
      have hl1 : scalLoop scalerF ctx nprops h i (r :: rest) = (s1, some e) := by
        simp only [scalLoop, hstep1]
      have hl2 : scalLoop scalerF ctx nprops h2 i (r :: rest) = (s2, some e) := by
        simp only [scalLoop, hstep2]
      rw [hl1, hl2]
      exact ⟨rfl, ha⟩

/-- When every remaining property holds fewer than two scores, the loop
raises nothing and leaves the aggregated array untouched. -/
theorem scalLoop_all_small (scalerF : String → List ℚ → List ℚ) (ctx : Ctx)
    (nprops : Nat) :
    ∀ (rest : List String) (i : Nat) (h : ScoreHist),
      (∀ q ∈ rest, (h.scores q).length < 2) →
      (scalLoop scalerF ctx nprops h i rest).2 = none ∧
      (scalLoop scalerF ctx nprops h i rest).1.aggregated_score
        = h.aggregated_score := by
  intro rest
  induction rest with
  | nil => intro i h hall; exact ⟨rfl, rfl⟩
  | cons r rest ih =>
    intro i h hall
    have hA : ¬ 1 < (h.scores r).length := by
      have := hall r (List.mem_cons_self r rest); omega
    have hstep := scalStep_small scalerF ctx nprops h i r hA
    have hrun : scalLoop scalerF ctx nprops h i (r :: rest)
        = scalLoop scalerF ctx nprops (setScaled h r (ScaledVal.num 0))
          (i + 1) rest := by
      simp only [scalLoop, hstep]
    obtain ⟨ihe, iha⟩ := ih (i + 1) (setScaled h r (ScaledVal.num 0))
      (fun q hq => hall q (List.mem_cons_of_mem r hq))
    rw [hrun]
    exact ⟨ihe, iha⟩

/-- C7: every call to `linear_scalarization` makes `aggregated_score`
exactly one element longer than before (stated for all inputs: the zero
array of length `len + 1` is assigned first and every subsequent step —
including the steps of a call aborted by an error — preserves that length),
and, under the benign side conditions of a normal run (known scaling mode,
length-preserving external scaler, enough weights, score histories one
longer than the incoming aggregated array for the properties that get
scaled), a property `p` with exactly one recorded score gets
`scaled_<p> = 0` and contributes nothing to any entry of the aggregated
array: replacing its single score by any other value leaves the whole
aggregated array unchanged. -/
theorem linear_scalarization_single_score (scalerF : String → List ℚ → List ℚ)
    (hist : ScoreHist) (props : List String) (ctx : Ctx) (p : String)
    (hp : p ∈ props) (h1 : (hist.scores p).length = 1)
    (hscale : ctx.scaling = "MinMax" ∨ ctx.scaling = "Std")
    (hw : props.length ≤ ctx.weights.length)
    (hsl : ∀ s v, (scalerF s v).length = v.length)
    (hinv : ∀ q ∈ props, 1 < (hist.scores q).length →
      (hist.scores q).length = hist.aggregated_score.length + 1) :
    (∀ (sF : String → List ℚ → List ℚ) (h2 : ScoreHist) (pl : List String)
      (c2 : Ctx),
      (linear_scalarization sF h2 pl c2).1.aggregated_score.length
        = h2.aggregated_score.length + 1) ∧
    (linear_scalarization scalerF hist props ctx).2 = none ∧
    (linear_scalarization scalerF hist props ctx).1.scaled p
      = ScaledVal.num 0 ∧
    ∀ v : ℚ,
      (linear_scalarization scalerF (setScores hist p [v]) props
          ctx).1.aggregated_score
        = (linear_scalarization scalerF hist props ctx).1.aggregated_score := by
  have hlenAll : ∀ (sF : String → List ℚ → List ℚ) (h2 : ScoreHist)
      (pl : List String) (c2 : Ctx),
      (linear_scalarization sF h2 pl c2).1.aggregated_score.length
        = h2.aggregated_score.length + 1 := by
    intro sF h2 pl c2
    exact (scalLoop_agg_length sF c2 pl.length pl 0
      { h2 with aggregated_score :=
          List.replicate (h2.aggregated_score.length + 1) 0 }).trans
      (by rw [List.length_replicate])
  obtain ⟨he, hscores, huntouched, hzero⟩ :=
    scalLoop_ok scalerF ctx props.length hsl hscale props 0
      { hist with aggregated_score :=
          List.replicate (hist.aggregated_score.length + 1) 0 }
      (by omega)
      (by
        intro q hq hq1
        show (hist.scores q).length = (List.replicate _ (0 : ℚ)).length
        rw [List.length_replicate]
        exact hinv q hq hq1)
  refine ⟨hlenAll, he, hzero p hp (by show (hist.scores p).length ≤ 1; omega), ?_⟩
  intro v
  have hind := scalLoop_indep scalerF ctx props.length p props 0
    { hist with aggregated_score :=
        List.replicate (hist.aggregated_score.length + 1) 0 }
    { (setScores hist p [v]) with aggregated_score :=
        (List.replicate ((setScores hist p [v]).aggregated_score.length + 1) 0) }
    (by
      intro q hq
      show (if q = p then [v] else hist.scores q) = hist.scores q
      rw [if_neg hq])
    rfl
    (by show (hist.scores p).length ≤ 1; omega)
    (by
      show (if p = p then [v] else hist.scores p).length ≤ 1
      rw [if_pos rfl]
      exact le_refl 1)
  exact hind.2.symm

/-- C10: when every property in the list has fewer than two recorded scores
(in particular on the very first trial), `linear_scalarization` raises
nothing and leaves `aggregated_score` as the all-zero list one element
longer than before, so the newest aggregated entry read by the outer search
(`aggregated_score[-1]`) is exactly `0`. -/
theorem linear_scalarization_all_single (scalerF : String → List ℚ → List ℚ)
    (hist : ScoreHist) (props : List String) (ctx : Ctx)
    (hall : ∀ q ∈ props, (hist.scores q).length < 2) :
    (linear_scalarization scalerF hist props ctx).2 = none ∧
    (linear_scalarization scalerF hist props ctx).1.aggregated_score
      = List.replicate (hist.aggregated_score.length + 1) 0 ∧
    (linear_scalarization scalerF hist props
        ctx).1.aggregated_score.getLast? = some 0 := by
  obtain ⟨he, ha⟩ := scalLoop_all_small scalerF ctx props.length props 0
    { hist with aggregated_score :=
        List.replicate (hist.aggregated_score.length + 1) 0 }
    (fun q hq => hall q hq)
  refine ⟨he, ha, ?_⟩
  have hfin : (linear_scalarization scalerF hist props
      ctx).1.aggregated_score
      = List.replicate (hist.aggregated_score.length + 1) (0 : ℚ) := ha
  rw [hfin, List.getLast?_replicate]
  simp

/-- Concrete context used by the scalarization witnesses. -/
def ctx7 : Ctx :=
  { X := [[1]], y := [0], feature_names := ["f0"], model := fun _ => 0,
    question := "Why", verbose := false, scaling := "MinMax",
    weights := [1, 1], explainer := none }

/-- Concrete history: robustness holds two scores, conciseness exactly
one. -/
def hist7 : ScoreHist :=
  { scores := fun q => if q = "robustness" then [1, 2]
      else if q = "conciseness" then [3] else [],
    scaled := fun _ => ScaledVal.num 0,
    aggregated_score := [0] }

/-- Concrete property list of the scalarization witnesses. -/
def props7 : List String := ["robustness", "conciseness"]

/-- Length-preserving stand-in for the external sklearn scaler, used by
witnesses. -/
def idScaler : String → List ℚ → List ℚ := fun _ v => v

/-- Witness for C7 at the concrete history where conciseness holds exactly
one score. -/
theorem linear_scalarization_single_score_witness :
    "conciseness" ∈ props7 ∧
    (hist7.scores "conciseness").length = 1 ∧
    (ctx7.scaling = "MinMax" ∨ ctx7.scaling = "Std") ∧
    props7.length ≤ ctx7.weights.length ∧
    (∀ s v, (idScaler s v).length = v.length) ∧
    (∀ q ∈ props7, 1 < (hist7.scores q).length →
      (hist7.scores q).length = hist7.aggregated_score.length + 1) ∧
    ((∀ (sF : String → List ℚ → List ℚ) (h2 : ScoreHist) (pl : List String)
        (c2 : Ctx),
        (linear_scalarization sF h2 pl c2).1.aggregated_score.length
          = h2.aggregated_score.length + 1) ∧
      (linear_scalarization idScaler hist7 props7 ctx7).2 = none ∧
      (linear_scalarization idScaler hist7 props7 ctx7).1.scaled "conciseness"
        = ScaledVal.num 0 ∧
      ∀ v : ℚ,
        (linear_scalarization idScaler (setScores hist7 "conciseness" [v])
            props7 ctx7).1.aggregated_score
          = (linear_scalarization idScaler hist7 props7
              ctx7).1.aggregated_score) :=
  ⟨by decide, by with_unfolding_all decide, Or.inl rfl, by decide,
    fun _ _ => rfl, by with_unfolding_all decide,
    linear_scalarization_single_score idScaler hist7 props7 ctx7 "conciseness"
      (by decide) (by with_unfolding_all decide) (Or.inl rfl) (by decide)
      (fun _ _ => rfl) (by with_unfolding_all decide)⟩

/-- Concrete first-trial history: a single property with one recorded
score, empty aggregated array. -/
def hist10 : ScoreHist :=
  { scores := fun q => if q = "robustness" then [5] else [],
    scaled := fun _ => ScaledVal.num 0,
    aggregated_score := [] }

/-- Witness for C10 at a concrete first trial. -/
theorem linear_scalarization_all_single_witness :
    (∀ q ∈ (["robustness"] : List String), (hist10.scores q).length < 2) ∧
    ((linear_scalarization idScaler hist10 ["robustness"] ctx7).2 = none ∧
      (linear_scalarization idScaler hist10 ["robustness"]
          ctx7).1.aggregated_score
        = List.replicate (hist10.aggregated_score.length + 1) 0 ∧
      (linear_scalarization idScaler hist10 ["robustness"]
          ctx7).1.aggregated_score.getLast? = some 0) :=
  ⟨by with_unfolding_all decide,
    linear_scalarization_all_single idScaler hist10 ["robustness"] ctx7
      (by with_unfolding_all decide)⟩

/-- Continuous bounding box declared by `gp_optimization`
(hyperparameters_optimization.py lines 82-98), one `(name, low, high)`
entry per hyperparameter dimension; `nfeat` is `len(feature_names)`. LIME
declares 2 dimensions, SHAP declares 5; any other kind leaves `pbounds`
empty. -/
def gp_pbounds (xai_sol : String) (nfeat : Nat) : List (String × ℚ × ℚ) :=
  if xai_sol = "LIME" then
    [("num_samples", 10, 10000), ("nfeatures", 1, (nfeat : ℚ))]
  else if xai_sol = "SHAP" then
    [("summarize", 0, 1), ("nsamples", 10, 2048), ("l1_reg", 0, 3),
      ("num_features", 1, (nfeat : ℚ)), ("nfeatures", 1, (nfeat : ℚ))]
  else []

/-- Number of random initial points of `gp_optimization`: for LIME the
source computes `5 ** len(pbounds)` (line 85); for SHAP it is the literal
`5 ** 2` (line 99) even though the SHAP box has 5 dimensions. For any other
kind neither branch runs and the name `init_points` (like `f`) is unbound,
so the call raises: modelled as `none`. -/
def gp_init_points (xai_sol : String) (nfeat : Nat) : Option Nat :=
  if xai_sol = "LIME" then some (5 ^ (gp_pbounds "LIME" nfeat).length)
  else if xai_sol = "SHAP" then some (5 ^ 2)
  else none

/-- Embedding of `gp_optimization` (hyperparameters_optimization.py lines
60-131). The optimizer `BayesianOptimization` is external bayes-opt library
code. Modelled from the spec: `maximize(init_points, n_iter)` evaluates
`init_points` random points followed by `n_iter` model-guided points, and
`optimizer.res` is the ordered trace of all evaluated (hyperparameter
vector, objective) pairs — one per evaluation, `init_points + epochs` in
total. The proposed vectors are abstracted as the generator `gen`, and the
objective closure `f` (lines 87-95 and 101-115: decode the vector, evaluate
every requested property, append to the score history, scalarize, return
the newest aggregated entry) is abstracted as a function of the proposed
vector, since the trace-count properties are independent of its value. -/
def gp_optimization (xai_sol : String) (nfeat : Nat) (f : List ℚ → ℚ)
    (gen : Nat → List ℚ) (epochs : Nat) : Option (List (List ℚ × ℚ)) :=
  (gp_init_points xai_sol nfeat).map
    (fun init => (List.range (init + epochs)).map (fun i => (gen i, f (gen i))))

/-- C3 counterexample: the SHAP bounding box has 5 hyperparameter
dimensions, yet `gp_optimization` evaluates only `5 ^ 2 = 25` random
initial points, not `5 ^ 5 = 3125`; with `epochs = 0` the returned trace
has 25 entries. -/
theorem gp_init_points_shap_cex :
    (gp_pbounds "SHAP" 4).length = 5 ∧
    gp_init_points "SHAP" 4 = some 25 ∧
    (gp_optimization "SHAP" 4 (fun _ => 0) (fun _ => []) 0).map List.length
      = some 25 ∧
    25 ≠ 5 ^ 5 := by
  refine ⟨by decide, by decide, ?_, by decide⟩
  with_unfolding_all decide

/-- C3 amended: for the LIME kind `gp_optimization` evaluates exactly
`5 ^ (number of dimensions of its bounding box)` random initial points,
while for SHAP the count is the fixed literal `5 ^ 2 = 25` (its box has 5
dimensions); in both cases the trace returned after `epochs` model-guided
iterations contains exactly `init_points + epochs` (hyperparameter vector,
objective) pairs, so with `epochs = 0` it contains exactly `init_points`
pairs. -/
theorem gp_trace_length (nfeat : Nat) (f : List ℚ → ℚ) (gen : Nat → List ℚ)
    (epochs : Nat) :
    (gp_optimization "LIME" nfeat f gen epochs).map List.length
      = some (5 ^ (gp_pbounds "LIME" nfeat).length + epochs) ∧
    (gp_optimization "SHAP" nfeat f gen epochs).map List.length
      = some (5 ^ 2 + epochs) := by
  constructor <;>
    simp [gp_optimization, gp_init_points, gp_pbounds]
